import Mathlib

/-!
Shallow embedding of the image-quantization core of the crash-camera
repository: the color matcher (`findClosestColor`), the threshold
quantizer (`applyThresholdDithering`), the error-diffusion ditherer
(`applyErrorDiffusionDithering` with its six compiled kernels), the
`ImageProcessor` dispatch (`applyDithering`) and the risograph layer
separator (`exportRisographLayers`).

Modelling conventions:
* An `ImageData.data` buffer (a JS `Uint8ClampedArray`) is modelled as a
  total function `ℕ → ℕ`; the code only ever reads and writes indices
  below `width * height * 4`, and every value a `Uint8ClampedArray` can
  hold is a natural number in `[0, 255]`.
* Writing a JS number into a `Uint8ClampedArray` slot clamps it to
  `[0, 255]` and rounds to the nearest integer, ties to even; `clampByte`
  reproduces this on exact rationals.  The kernel weights (`7/16`, `1/8`,
  `8/42`, ...) are modelled as exact rationals.
* `colorDistance` in the source is `Math.sqrt` of an integer sum of
  squares, used only in `<` comparisons between such values; since the
  squared distances are integers below `3 * 255 ^ 2` and the correctly
  rounded square roots of such integers are strictly monotone in them,
  comparing the source's distances is equivalent to comparing the
  integer squared distances, which is what `colorDistSq` does.
-/

namespace CrashCamera

/-- An RGB triple, one channel sample per component. -/
structure RGB where
  r : ℕ
  g : ℕ
  b : ℕ
deriving DecidableEq, Repr

/-- Squared Euclidean distance in RGB space; `colorDistance` in
`ColorUtils.js` is the square root of this, and is only ever used in
order comparisons, which the square root preserves. -/
def colorDistSq (c1 c2 : RGB) : ℤ :=
  ((c1.r : ℤ) - c2.r) ^ 2 + ((c1.g : ℤ) - c2.g) ^ 2 + ((c1.b : ℤ) - c2.b) ^ 2

/-- The scanning loop of `findClosestColor`: walk the remaining palette
entries, replacing the current best on a strictly smaller distance. -/
def fccLoop (rgb : RGB) (best : RGB) (bestD : ℤ) : List RGB → RGB
  | [] => best
  | c :: rest =>
      if colorDistSq rgb c < bestD then
        fccLoop rgb c (colorDistSq rgb c) rest
      else
        fccLoop rgb best bestD rest

/-- `findClosestColor` from `ColorUtils.js`: the first palette entry
achieving the minimum distance.  The source indexes `palette[0]`
unconditionally, so an empty palette is a caller error; the theorems all
assume a non-empty palette and the `[]` branch is an arbitrary
totalization. -/
def findClosestColor (rgb : RGB) : List RGB → RGB
  | [] => rgb
  | c :: rest => fccLoop rgb c (colorDistSq rgb c) rest

/-- A flat RGBA sample buffer (JS `ImageData.data`). -/
abbrev Buf : Type := ℕ → ℕ

/-- A canvas `ImageData`: dimensions plus the flat RGBA buffer. -/
structure Image where
  width : ℕ
  height : ℕ
  data : Buf

/-- The RGB triple of pixel number `p` (`idx = p * 4` in the source). -/
def pixelAt (d : Buf) (p : ℕ) : RGB :=
  ⟨d (4 * p), d (4 * p + 1), d (4 * p + 2)⟩

/-- Store an RGB triple at pixel `p`, leaving every other sample (in
particular the alpha sample `4 * p + 3`) unchanged. -/
def writeRGB (d : Buf) (p : ℕ) (c : RGB) : Buf := fun j =>
  if j = 4 * p then c.r
  else if j = 4 * p + 1 then c.g
  else if j = 4 * p + 2 then c.b
  else d j

/-- One pixel of the threshold pass: snap pixel `p` to its nearest
palette color. -/
def thresholdStep (palette : List RGB) (d : Buf) (p : ℕ) : Buf :=
  writeRGB d p (findClosestColor (pixelAt d p) palette)

/-- The threshold pass over the first `k` pixels in row-major order
(the `y`/`x` double loop of `applyThresholdDithering` visits pixel
numbers `y * width + x` in increasing order). -/
def thresholdScan (palette : List RGB) (d : Buf) (k : ℕ) : Buf :=
  (List.range k).foldl (thresholdStep palette) d

/-- `applyThresholdDithering` from `ImageProcessor.js`. -/
def applyThresholdDithering (imageData : Image) (palette : List RGB) : Image :=
  { imageData with
    data := thresholdScan palette imageData.data (imageData.width * imageData.height) }

/-- One tap of a diffusion kernel: offsets and weight
(`{ x: dx, y: dy, factor }` in the source). -/
structure Tap where
  dx : ℤ
  dy : ℤ
  factor : ℚ
deriving DecidableEq, Repr

/-- The Floyd-Steinberg kernel. -/
def floydSteinberg : List Tap :=
  [⟨1, 0, 7/16⟩, ⟨-1, 1, 3/16⟩, ⟨0, 1, 5/16⟩, ⟨1, 1, 1/16⟩]

/-- The Atkinson kernel. -/
def atkinson : List Tap :=
  [⟨1, 0, 1/8⟩, ⟨2, 0, 1/8⟩, ⟨-1, 1, 1/8⟩, ⟨0, 1, 1/8⟩, ⟨1, 1, 1/8⟩, ⟨0, 2, 1/8⟩]

/-- The Burkes kernel. -/
def burkes : List Tap :=
  [⟨1, 0, 8/32⟩, ⟨2, 0, 4/32⟩, ⟨-2, 1, 2/32⟩, ⟨-1, 1, 4/32⟩, ⟨0, 1, 8/32⟩,
   ⟨1, 1, 4/32⟩, ⟨2, 1, 2/32⟩]

/-- The Sierra kernel. -/
def sierra : List Tap :=
  [⟨1, 0, 5/32⟩, ⟨2, 0, 3/32⟩, ⟨-2, 1, 2/32⟩, ⟨-1, 1, 4/32⟩, ⟨0, 1, 5/32⟩,
   ⟨1, 1, 4/32⟩, ⟨2, 1, 2/32⟩, ⟨-1, 2, 2/32⟩, ⟨0, 2, 3/32⟩, ⟨1, 2, 2/32⟩]

/-- The Stucki kernel. -/
def stucki : List Tap :=
  [⟨1, 0, 8/42⟩, ⟨2, 0, 4/42⟩, ⟨-2, 1, 2/42⟩, ⟨-1, 1, 4/42⟩, ⟨0, 1, 8/42⟩,
   ⟨1, 1, 4/42⟩, ⟨2, 1, 2/42⟩, ⟨-2, 2, 1/42⟩, ⟨-1, 2, 2/42⟩, ⟨0, 2, 4/42⟩,
   ⟨1, 2, 2/42⟩, ⟨2, 2, 1/42⟩]

/-- The Jarvis-Judice-Ninke kernel. -/
def jarvis : List Tap :=
  [⟨1, 0, 7/48⟩, ⟨2, 0, 5/48⟩, ⟨-2, 1, 3/48⟩, ⟨-1, 1, 5/48⟩, ⟨0, 1, 7/48⟩,
   ⟨1, 1, 5/48⟩, ⟨2, 1, 3/48⟩, ⟨-2, 2, 1/48⟩, ⟨-1, 2, 3/48⟩, ⟨0, 2, 5/48⟩,
   ⟨1, 2, 3/48⟩, ⟨2, 2, 1/48⟩]

/-- `_getDiffusionMatrices` from `ImageProcessor.js`: the string-keyed
table of compiled kernels. -/
def diffusionMatrices : List (String × List Tap) :=
  [("floyd-steinberg", floydSteinberg), ("atkinson", atkinson), ("burkes", burkes),
   ("sierra", sierra), ("stucki", stucki), ("jarvis", jarvis)]

/-- Kernel lookup with the Floyd-Steinberg fallback
(`diffusionMatrices[method] || diffusionMatrices['floyd-steinberg']`). -/
def matrixFor (method : String) : List Tap :=
  (diffusionMatrices.lookup method).getD floydSteinberg

/-- Store an exact rational into a `Uint8ClampedArray` slot after the
source's `Math.max(0, Math.min(255, v))`: clamp to `[0, 255]`, then
round to the nearest integer, ties to even. -/
def clampByte (q : ℚ) : ℕ :=
  let v := max 0 (min 255 q)
  let f := ⌊v⌋
  (if v - f < 1/2 then f
   else if v - f > 1/2 then f + 1
   else if f % 2 = 0 then f else f + 1).toNat

/-- Distribute one kernel tap's share of the residual error of the pixel
at `(x, y)` — the in-bounds check and the three clamped additions of
`applyErrorDiffusionDithering`. -/
def diffuseTap (w h : ℕ) (x y : ℕ) (errR errG errB : ℤ) (d : Buf) (t : Tap) : Buf :=
  let x2 : ℤ := (x : ℤ) + t.dx
  let y2 : ℤ := (y : ℤ) + t.dy
  if 0 ≤ x2 ∧ x2 < w ∧ 0 ≤ y2 ∧ y2 < h then
    let p2 : ℕ := y2.toNat * w + x2.toNat
    fun j =>
      if j = 4 * p2 then clampByte ((d (4 * p2) : ℚ) + (errR : ℚ) * t.factor)
      else if j = 4 * p2 + 1 then clampByte ((d (4 * p2 + 1) : ℚ) + (errG : ℚ) * t.factor)
      else if j = 4 * p2 + 2 then clampByte ((d (4 * p2 + 2) : ℚ) + (errB : ℚ) * t.factor)
      else d j
  else d

/-- One pixel of the error-diffusion pass: quantize pixel `p` to its
nearest palette color, then spread the per-channel residual to the
kernel's neighbors. -/
def diffuseStep (palette : List RGB) (matrix : List Tap) (w h : ℕ) (d : Buf) (p : ℕ) : Buf :=
  let x := p % w
  let y := p / w
  let oldPixel := pixelAt d p
  let newPixel := findClosestColor oldPixel palette
  let d1 := writeRGB d p newPixel
  let errR : ℤ := (oldPixel.r : ℤ) - newPixel.r
  let errG : ℤ := (oldPixel.g : ℤ) - newPixel.g
  let errB : ℤ := (oldPixel.b : ℤ) - newPixel.b
  matrix.foldl (diffuseTap w h x y errR errG errB) d1

/-- The error-diffusion pass over the first `k` pixels in row-major
order (the `y`/`x` double loop visits pixel numbers `y * width + x` in
increasing order). -/
def diffuseScan (palette : List RGB) (matrix : List Tap) (w h : ℕ) (d : Buf) (k : ℕ) : Buf :=
  (List.range k).foldl (diffuseStep palette matrix w h) d

/-- `applyErrorDiffusionDithering` from `ImageProcessor.js`, on the
runs where the kernel resolution yields an actual kernel table (an own
property of the matrices object, or the Floyd-Steinberg fallback for an
absent one).  `applyErrorDiffusionDitheringJS` below adds the remaining
case of JS property access, where an unknown name hits the prototype
chain and the call throws. -/
def applyErrorDiffusionDithering (imageData : Image) (palette : List RGB)
    (method : String) : Image :=
  { imageData with
    data := diffuseScan palette (matrixFor method) imageData.width imageData.height
      imageData.data (imageData.width * imageData.height) }

/-- The property names every plain JS object literal inherits from
`Object.prototype` (including the Annex B accessors): for these,
`diffusionMatrices[method]` yields a truthy non-kernel value instead of
`undefined`. -/
def objectPrototypeProps : List String :=
  ["constructor", "hasOwnProperty", "isPrototypeOf", "propertyIsEnumerable",
   "toLocaleString", "toString", "valueOf", "__proto__", "__defineGetter__",
   "__defineSetter__", "__lookupGetter__", "__lookupSetter__"]

/-- The possible results of the JS property access
`diffusionMatrices[method]` on the object literal returned by
`_getDiffusionMatrices`: an own property carrying a kernel table, a
truthy value inherited from `Object.prototype` (a function, or
`Object.prototype` itself for `__proto__` — none of them an array), or
`undefined`. -/
inductive MatrixProp
  | kernel (m : List Tap)
  | inheritedJunk
  | undef
deriving DecidableEq, Repr

/-- `diffusionMatrices[method]` at JS property-access fidelity,
prototype chain included. -/
def matrixProp (method : String) : MatrixProp :=
  match diffusionMatrices.lookup method with
  | some m => MatrixProp.kernel m
  | none =>
      if method ∈ objectPrototypeProps then MatrixProp.inheritedJunk
      else MatrixProp.undef

/-- `applyErrorDiffusionDithering` with the kernel lookup modelled at
full JS fidelity.  When `diffusionMatrices[method]` is a truthy
inherited `Object.prototype` member, the `||` fallback does not fire,
and `matrix.forEach` throws `TypeError` in the first loop iteration —
after pixel 0 has already been quantized and written (on an empty image
the loop body never runs, so nothing is thrown).  Returns the buffer
state after the call together with the thrown error, if any. -/
def applyErrorDiffusionDitheringJS (imageData : Image) (palette : List RGB)
    (method : String) : Image × Option String :=
  if matrixProp method = MatrixProp.inheritedJunk then
    if 0 < imageData.width * imageData.height then
      ({ imageData with
          data := writeRGB imageData.data 0
            (findClosestColor (pixelAt imageData.data 0) palette) },
        some "TypeError: matrix.forEach is not a function")
    else (imageData, none)
  else (applyErrorDiffusionDithering imageData palette method, none)

/-- The `ImageProcessor` instance state: current method string and the
palette, `null` until `setPalette` has been called. -/
structure ImageProcessor where
  ditherMethod : String
  palette : Option (List RGB)

/-- `applyDithering` from `ImageProcessor.js`.  The result pairs the
buffer state after the call with the thrown error, if any: on a missing
palette the source throws before touching the buffer, so the original
image is returned alongside the error message. -/
def applyDithering (ip : ImageProcessor) (imageData : Image) : Image × Option String :=
  match ip.palette with
  | none => (imageData, some "Palette not set. Call setPalette() first.")
  | some palette =>
      if ip.ditherMethod = "threshold" then
        (applyThresholdDithering imageData palette, none)
      else
        (applyErrorDiffusionDithering imageData palette ip.ditherMethod, none)

/-- One layer mask of `exportRisographLayers`: pixels whose RGB equals
the target ink color become opaque black, all others opaque white.  The
fresh `createImageData` buffer is zero outside the written range. -/
def layerMask (d : Buf) (numPixels : ℕ) (target : RGB) : Buf := fun j =>
  if j / 4 < numPixels then
    if pixelAt d (j / 4) = target then
      (if j % 4 = 3 then 255 else 0)
    else 255
  else 0

/-- `exportRisographLayers` (pixel-processing core): one mask per
palette entry of index 1 and above (`layerIndex` runs from `1` to
`palette.length - 1`, skipping the white/paper entry). -/
def exportRisographLayers (d : Buf) (numPixels : ℕ) (palette : List RGB) : List Buf :=
  (palette.drop 1).map (layerMask d numPixels)

/-- A mask pixel carries ink when it was written as black. -/
def maskBlack (m : Buf) (p : ℕ) : Prop :=
  pixelAt m p = ⟨0, 0, 0⟩

instance (m : Buf) (p : ℕ) : Decidable (maskBlack m p) := by
  unfold maskBlack; infer_instance

/-- `buildPalette` from `ColorUtils.js`, at the RGB level (the CSS color
name resolution of `colorToRgb` is DOM-dependent and out of scope):
white prepended to the five ink colors. -/
def buildPalette (c1 c2 c3 c4 c5 : RGB) : List RGB :=
  [⟨255, 255, 255⟩, c1, c2, c3, c4, c5]

/-- Two buffers agree on every non-alpha sample. -/
def agreeRGB (a b : Buf) : Prop :=
  ∀ j, j % 4 ≠ 3 → a j = b j

/-- A tap only pushes error forward in row-major order. -/
def causalTap (t : Tap) : Prop :=
  0 ≤ t.dy ∧ (t.dy = 0 → 0 < t.dx) ∧ 0 < t.factor

instance (t : Tap) : Decidable (causalTap t) := by
  unfold causalTap; infer_instance

/-! ### Generic fold lemmas -/

lemma foldl_preserves {α β : Type} (f : β → α → β) (l : List α) (Q : β → Prop)
    (h : ∀ d a, a ∈ l → Q d → Q (f d a)) : ∀ d, Q d → Q (l.foldl f d) := by
  induction l with
  | nil => intro d hd; exact hd
  | cons a l ih =>
      intro d hd
      exact ih (fun e b hb he => h e b (List.mem_cons_of_mem a hb) he) (f d a)
        (h d a (List.mem_cons_self a l) hd)

lemma foldl_rel {α β : Type} (f g : β → α → β) (l : List α) (R : β → β → Prop)
    (h : ∀ a, a ∈ l → ∀ d e, R d e → R (f d a) (g e a)) :
    ∀ d e, R d e → R (l.foldl f d) (l.foldl g e) := by
  induction l with
  | nil => intro d e hde; exact hde
  | cons a l ih =>
      intro d e hde
      exact ih (fun b hb d1 e1 h1 => h b (List.mem_cons_of_mem a hb) d1 e1 h1)
        (f d a) (g e a) (h a (List.mem_cons_self a l) d e hde)

lemma thresholdScan_succ (palette : List RGB) (d : Buf) (k : ℕ) :
    thresholdScan palette d (k + 1) = thresholdStep palette (thresholdScan palette d k) k := by
  unfold thresholdScan
  rw [List.range_succ, List.foldl_append, List.foldl_cons, List.foldl_nil]

lemma diffuseScan_succ (palette : List RGB) (matrix : List Tap) (w h : ℕ) (d : Buf) (k : ℕ) :
    diffuseScan palette matrix w h d (k + 1) =
      diffuseStep palette matrix w h (diffuseScan palette matrix w h d k) k := by
  unfold diffuseScan
  rw [List.range_succ, List.foldl_append, List.foldl_cons, List.foldl_nil]

/-! ### Buffer write lemmas -/

lemma writeRGB_at_r (d : Buf) (p : ℕ) (c : RGB) : writeRGB d p c (4 * p) = c.r := by
  unfold writeRGB; rw [if_pos rfl]

lemma writeRGB_at_g (d : Buf) (p : ℕ) (c : RGB) : writeRGB d p c (4 * p + 1) = c.g := by
  unfold writeRGB; rw [if_neg (by omega), if_pos rfl]

lemma writeRGB_at_b (d : Buf) (p : ℕ) (c : RGB) : writeRGB d p c (4 * p + 2) = c.b := by
  unfold writeRGB; rw [if_neg (by omega), if_neg (by omega), if_pos rfl]

lemma writeRGB_other (d : Buf) (p : ℕ) (c : RGB) (j : ℕ)
    (h1 : j ≠ 4 * p) (h2 : j ≠ 4 * p + 1) (h3 : j ≠ 4 * p + 2) :
    writeRGB d p c j = d j := by
  unfold writeRGB; rw [if_neg h1, if_neg h2, if_neg h3]

lemma pixelAt_writeRGB_self (d : Buf) (p : ℕ) (c : RGB) :
    pixelAt (writeRGB d p c) p = c := by
  unfold pixelAt
  rw [writeRGB_at_r, writeRGB_at_g, writeRGB_at_b]

lemma pixelAt_writeRGB_ne (d : Buf) (p q : ℕ) (c : RGB) (h : q ≠ p) :
    pixelAt (writeRGB d p c) q = pixelAt d q := by
  unfold pixelAt
  rw [writeRGB_other _ _ _ _ (by omega) (by omega) (by omega),
    writeRGB_other _ _ _ _ (by omega) (by omega) (by omega),
    writeRGB_other _ _ _ _ (by omega) (by omega) (by omega)]

lemma writeRGB_alpha (d : Buf) (p : ℕ) (c : RGB) (j : ℕ) (hj : j % 4 = 3) :
    writeRGB d p c j = d j :=
  writeRGB_other d p c j (by omega) (by omega) (by omega)

/-! ### Clamped byte store -/

lemma clampByte_le (q : ℚ) : clampByte q ≤ 255 := by
  unfold clampByte
  dsimp only
  set v := max 0 (min 255 q) with hv
  have hv0 : 0 ≤ v := le_max_left 0 _
  have hv255 : v ≤ 255 := by
    rcases max_choice 0 (min 255 q) with h | h
    · rw [hv, h]; norm_num
    · rw [hv, h]; exact min_le_left 255 q
  have hf0 : (0 : ℤ) ≤ ⌊v⌋ := Int.le_floor.mpr (by exact_mod_cast hv0)
  have hf255 : ⌊v⌋ ≤ 255 := by
    have := Int.floor_le_floor (α := ℚ) hv255
    simpa using this
  have hfle : (⌊v⌋ : ℚ) ≤ v := Int.floor_le v
  split_ifs with h1 h2 h3
  · omega
  · -- round up: the fractional part is above 1/2, so the floor is at most 254
    have hlt : (⌊v⌋ : ℚ) + 1/2 < v := by linarith
    have : (⌊v⌋ : ℚ) < 255 - 1/2 := by linarith
    have hfl : ⌊v⌋ < 255 := by
      by_contra hcon
      push_neg at hcon
      have : (255 : ℚ) ≤ (⌊v⌋ : ℚ) := by exact_mod_cast hcon
      linarith
    omega
  · omega
  · have hle : (⌊v⌋ : ℚ) + 1/2 ≤ v := by linarith
    have : (⌊v⌋ : ℚ) ≤ 255 - 1/2 := by linarith
    have hfl : ⌊v⌋ < 255 := by
      by_contra hcon
      push_neg at hcon
      have : (255 : ℚ) ≤ (⌊v⌋ : ℚ) := by exact_mod_cast hcon
      linarith
    omega

/-! ### Color matcher lemmas -/

lemma colorDistSq_nonneg (c1 c2 : RGB) : 0 ≤ colorDistSq c1 c2 := by
  unfold colorDistSq
  positivity

lemma colorDistSq_eq_zero (c1 c2 : RGB) : colorDistSq c1 c2 = 0 ↔ c1 = c2 := by
  unfold colorDistSq
  constructor
  · intro h
    have h1 : ((c1.r : ℤ) - c2.r) ^ 2 = 0 ∧ ((c1.g : ℤ) - c2.g) ^ 2 = 0 ∧
        ((c1.b : ℤ) - c2.b) ^ 2 = 0 := by
      refine ⟨le_antisymm ?_ (sq_nonneg _), le_antisymm ?_ (sq_nonneg _),
        le_antisymm ?_ (sq_nonneg _)⟩ <;> nlinarith [sq_nonneg ((c1.r : ℤ) - c2.r),
          sq_nonneg ((c1.g : ℤ) - c2.g), sq_nonneg ((c1.b : ℤ) - c2.b)]
    obtain ⟨h1, h2, h3⟩ := h1
    rw [pow_eq_zero_iff (by norm_num), sub_eq_zero] at h1 h2 h3
    obtain ⟨r1, g1, b1⟩ := c1
    obtain ⟨r2, g2, b2⟩ := c2
    simp only [RGB.mk.injEq]
    exact ⟨by exact_mod_cast h1, by exact_mod_cast h2, by exact_mod_cast h3⟩
  · intro h
    subst h
    ring

lemma fccLoop_mem (rgb best : RGB) (bestD : ℤ) (rest : List RGB) :
    fccLoop rgb best bestD rest ∈ best :: rest := by
  induction rest generalizing best bestD with
  | nil => exact List.mem_cons_self _ _
  | cons c rest ih =>
      unfold fccLoop
      split_ifs
      · have := ih c (colorDistSq rgb c)
        rcases List.mem_cons.mp this with h | h
        · rw [h]; exact List.mem_cons_of_mem _ (List.mem_cons_self _ _)
        · exact List.mem_cons_of_mem _ (List.mem_cons_of_mem _ h)
      · have := ih best bestD
        rcases List.mem_cons.mp this with h | h
        · rw [h]; exact List.mem_cons_self _ _
        · exact List.mem_cons_of_mem _ (List.mem_cons_of_mem _ h)

lemma findClosestColor_mem (rgb : RGB) (palette : List RGB) (h : palette ≠ []) :
    findClosestColor rgb palette ∈ palette := by
  cases palette with
  | nil => exact absurd rfl h
  | cons c rest => exact fccLoop_mem rgb c (colorDistSq rgb c) rest

/-- Full characterization of the scanning loop: either no entry of the
remaining list strictly improves on the current best, or the result is
the entry at the first index that reaches the overall minimum distance,
strictly below the current best and every entry before it. -/
lemma fccLoop_spec (rgb : RGB) (rest : List RGB) : ∀ best : RGB,
    (fccLoop rgb best (colorDistSq rgb best) rest = best ∧
      ∀ x ∈ rest, colorDistSq rgb best ≤ colorDistSq rgb x) ∨
    (∃ k, ∃ hk : k < rest.length,
      fccLoop rgb best (colorDistSq rgb best) rest = rest.get ⟨k, hk⟩ ∧
      colorDistSq rgb (rest.get ⟨k, hk⟩) < colorDistSq rgb best ∧
      (∀ m, ∀ hm : m < k,
        colorDistSq rgb (rest.get ⟨k, hk⟩) < colorDistSq rgb (rest.get ⟨m, hm.trans hk⟩)) ∧
      (∀ x ∈ rest, colorDistSq rgb (rest.get ⟨k, hk⟩) ≤ colorDistSq rgb x)) := by
  induction rest with
  | nil => intro best; left; exact ⟨rfl, by simp⟩
  | cons c rest ih =>
      intro best
      unfold fccLoop
      by_cases hlt : colorDistSq rgb c < colorDistSq rgb best
      · rw [if_pos hlt]
        rcases ih c with ⟨heq, hall⟩ | ⟨k, hk, heq, hlt2, hfirst, hmin⟩
        · right
          refine ⟨0, by simp, heq, hlt, fun m hm => absurd hm (Nat.not_lt_zero m), ?_⟩
          intro x hx
          rcases List.mem_cons.mp hx with h | h
          · rw [h]; exact le_rfl
          · exact hall x h
        · right
          refine ⟨k + 1, by simpa using Nat.succ_lt_succ hk, heq, lt_trans hlt2 hlt, ?_, ?_⟩
          · intro m hm
            cases m with
            | zero => exact hlt2
            | succ m => exact hfirst m (Nat.lt_of_succ_lt_succ hm)
          · intro x hx
            rcases List.mem_cons.mp hx with h | h
            · rw [h]; exact le_of_lt hlt2
            · exact hmin x h
      · rw [if_neg hlt]
        push_neg at hlt
        rcases ih best with ⟨heq, hall⟩ | ⟨k, hk, heq, hlt2, hfirst, hmin⟩
        · left
          refine ⟨heq, ?_⟩
          intro x hx
          rcases List.mem_cons.mp hx with h | h
          · rw [h]; exact hlt
          · exact hall x h
        · right
          refine ⟨k + 1, by simpa using Nat.succ_lt_succ hk, heq, hlt2, ?_, ?_⟩
          · intro m hm
            cases m with
            | zero => exact lt_of_lt_of_le hlt2 hlt
            | succ m => exact hfirst m (Nat.lt_of_succ_lt_succ hm)
          · intro x hx
            rcases List.mem_cons.mp hx with h | h
            · rw [h]; exact le_of_lt (lt_of_lt_of_le hlt2 hlt)
            · exact hmin x h

/-- The matcher result achieves the minimum distance over the palette. -/
lemma findClosestColor_min (rgb : RGB) (palette : List RGB) :
    ∀ x ∈ palette, colorDistSq rgb (findClosestColor rgb palette) ≤ colorDistSq rgb x := by
  cases palette with
  | nil => intro x hx; exact absurd hx (List.not_mem_nil x)
  | cons c rest =>
      intro x hx
      show colorDistSq rgb (fccLoop rgb c (colorDistSq rgb c) rest) ≤ _
      rcases fccLoop_spec rgb rest c with ⟨heq, hall⟩ | ⟨k, hk, heq, hlt2, _, hmin⟩
      · rw [heq]
        rcases List.mem_cons.mp hx with h | h
        · rw [h]
        · exact hall x h
      · rw [heq]
        rcases List.mem_cons.mp hx with h | h
        · rw [h]; exact le_of_lt hlt2
        · exact hmin x h

/-! ### Diffusion tap lemmas -/

/-- Under the row-major scan, a causal in-bounds tap from pixel `p`
targets a strictly later pixel. -/
lemma tap_target_gt (w p : ℕ) (hw : 0 < w) (dx dy : ℤ) (hdy : 0 ≤ dy)
    (hdx : dy = 0 → 0 < dx) (hx0 : 0 ≤ ((p % w : ℕ) : ℤ) + dx)
    (_hxw : ((p % w : ℕ) : ℤ) + dx < (w : ℤ)) :
    p < (((p / w : ℕ) : ℤ) + dy).toNat * w + (((p % w : ℕ) : ℤ) + dx).toNat := by
  have hp : w * (p / w) + p % w = p := Nat.div_add_mod p w
  have hxltw : p % w < w := Nat.mod_lt p hw
  have ha : (((((p % w : ℕ) : ℤ) + dx).toNat : ℤ)) = ((p % w : ℕ) : ℤ) + dx :=
    Int.toNat_of_nonneg hx0
  have hb : (((((p / w : ℕ) : ℤ) + dy).toNat : ℤ)) = ((p / w : ℕ) : ℤ) + dy :=
    Int.toNat_of_nonneg (add_nonneg (Int.natCast_nonneg _) hdy)
  set x := p % w with hxdef
  set y := p / w with hydef
  set a := (((x : ℕ) : ℤ) + dx).toNat with hadef
  set b := (((y : ℕ) : ℤ) + dy).toNat with hbdef
  clear_value x y a b
  rcases eq_or_lt_of_le hdy with h0 | h1
  · have hdx1 : 0 < dx := hdx h0.symm
    have hbeq : b = y := by omega
    have hxa : x < a := by omega
    have hbw : b * w = w * y := by rw [hbeq]; ring
    omega
  · have hby : y + 1 ≤ b := by omega
    have hmul : (y + 1) * w ≤ b * w := Nat.mul_le_mul_right w hby
    have hsplit : (y + 1) * w = w * y + w := by ring
    omega

lemma diffuseTap_untouched (w h p : ℕ) (hw : 0 < w) (eR eG eB : ℤ) (d : Buf) (t : Tap)
    (hc : causalTap t) (j : ℕ) (hj : j < 4 * p + 4) :
    diffuseTap w h (p % w) (p / w) eR eG eB d t j = d j := by
  unfold diffuseTap
  dsimp only
  split_ifs with hbnd <;> try dsimp only
  · obtain ⟨hx0, hxw, hy0, hyh⟩ := hbnd
    have hgt : p < (((p / w : ℕ) : ℤ) + t.dy).toNat * w + (((p % w : ℕ) : ℤ) + t.dx).toNat :=
      tap_target_gt w p hw t.dx t.dy hc.1 hc.2.1 hx0 (by exact_mod_cast hxw)
    set p2 := (((p / w : ℕ) : ℤ) + t.dy).toNat * w + (((p % w : ℕ) : ℤ) + t.dx).toNat with hp2
    clear_value p2
    rw [if_neg (by omega), if_neg (by omega), if_neg (by omega)]

lemma diffuseTap_alpha (w h x y : ℕ) (eR eG eB : ℤ) (d : Buf) (t : Tap)
    (j : ℕ) (hj : j % 4 = 3) :
    diffuseTap w h x y eR eG eB d t j = d j := by
  unfold diffuseTap
  dsimp only
  split_ifs with hbnd <;> try dsimp only
  · set p2 := (((y : ℕ) : ℤ) + t.dy).toNat * w + (((x : ℕ) : ℤ) + t.dx).toNat with hp2
    clear_value p2
    rw [if_neg (by omega), if_neg (by omega), if_neg (by omega)]

lemma diffuseTap_le (w h x y : ℕ) (eR eG eB : ℤ) (d : Buf) (t : Tap)
    (hd : ∀ j, d j ≤ 255) (j : ℕ) :
    diffuseTap w h x y eR eG eB d t j ≤ 255 := by
  unfold diffuseTap
  dsimp only
  split_ifs with hbnd <;> try dsimp only
  · set p2 := (((y : ℕ) : ℤ) + t.dy).toNat * w + (((x : ℕ) : ℤ) + t.dx).toNat with hp2
    clear_value p2
    by_cases h0 : j = 4 * p2
    · rw [if_pos h0]; exact clampByte_le _
    by_cases h1 : j = 4 * p2 + 1
    · rw [if_neg h0, if_pos h1]; exact clampByte_le _
    by_cases h2 : j = 4 * p2 + 2
    · rw [if_neg h0, if_neg h1, if_pos h2]; exact clampByte_le _
    · rw [if_neg h0, if_neg h1, if_neg h2]; exact hd j
  · exact hd j

lemma diffuseTap_agree (w h x y : ℕ) (eR eG eB : ℤ) (a b : Buf) (t : Tap)
    (hab : agreeRGB a b) :
    agreeRGB (diffuseTap w h x y eR eG eB a t) (diffuseTap w h x y eR eG eB b t) := by
  intro j hj
  unfold diffuseTap
  dsimp only
  split_ifs with hbnd <;> try dsimp only
  · set p2 := (((y : ℕ) : ℤ) + t.dy).toNat * w + (((x : ℕ) : ℤ) + t.dx).toNat with hp2
    clear_value p2
    by_cases h0 : j = 4 * p2
    · rw [if_pos h0, if_pos h0, hab (4 * p2) (by omega)]
    by_cases h1 : j = 4 * p2 + 1
    · rw [if_neg h0, if_pos h1, if_neg h0, if_pos h1, hab (4 * p2 + 1) (by omega)]
    by_cases h2 : j = 4 * p2 + 2
    · rw [if_neg h0, if_neg h1, if_pos h2, if_neg h0, if_neg h1, if_pos h2,
        hab (4 * p2 + 2) (by omega)]
    · rw [if_neg h0, if_neg h1, if_neg h2, if_neg h0, if_neg h1, if_neg h2]
      exact hab j hj
  · exact hab j hj

/-! ### Diffusion step lemmas -/

lemma writeRGB_agree (a b : Buf) (p : ℕ) (c : RGB) (hab : agreeRGB a b) :
    agreeRGB (writeRGB a p c) (writeRGB b p c) := by
  intro j hj
  unfold writeRGB
  split_ifs <;> first | rfl | exact hab j hj

/-- Below sample `4 * p + 4`, one diffusion step only performs the
quantization write at pixel `p`: every causal tap lands strictly
later. -/
lemma diffuseStep_low (palette : List RGB) (matrix : List Tap) (w h : ℕ) (d : Buf) (p : ℕ)
    (hw : 0 < w) (hm : ∀ t ∈ matrix, causalTap t) :
    ∀ j < 4 * p + 4, diffuseStep palette matrix w h d p j =
      writeRGB d p (findClosestColor (pixelAt d p) palette) j := by
  unfold diffuseStep
  try dsimp only
  exact foldl_preserves _ matrix
    (fun e : Buf => ∀ j < 4 * p + 4, e j = writeRGB d p (findClosestColor (pixelAt d p) palette) j)
    (fun e t ht he j hj => by
      rw [diffuseTap_untouched w h p hw _ _ _ e t (hm t ht) j hj]
      exact he j hj)
    _ (fun j hj => rfl)

lemma diffuseStep_pixel (palette : List RGB) (matrix : List Tap) (w h : ℕ) (d : Buf) (p : ℕ)
    (hw : 0 < w) (hm : ∀ t ∈ matrix, causalTap t) :
    pixelAt (diffuseStep palette matrix w h d p) p =
      findClosestColor (pixelAt d p) palette := by
  have h0 := diffuseStep_low palette matrix w h d p hw hm (4 * p) (by omega)
  have h1 := diffuseStep_low palette matrix w h d p hw hm (4 * p + 1) (by omega)
  have h2 := diffuseStep_low palette matrix w h d p hw hm (4 * p + 2) (by omega)
  unfold pixelAt
  rw [h0, h1, h2, writeRGB_at_r, writeRGB_at_g, writeRGB_at_b]
  rfl

lemma diffuseStep_earlier (palette : List RGB) (matrix : List Tap) (w h : ℕ) (d : Buf)
    (p : ℕ) (hw : 0 < w) (hm : ∀ t ∈ matrix, causalTap t) (q : ℕ) (hq : q < p) :
    pixelAt (diffuseStep palette matrix w h d p) q = pixelAt d q := by
  have h0 := diffuseStep_low palette matrix w h d p hw hm (4 * q) (by omega)
  have h1 := diffuseStep_low palette matrix w h d p hw hm (4 * q + 1) (by omega)
  have h2 := diffuseStep_low palette matrix w h d p hw hm (4 * q + 2) (by omega)
  unfold pixelAt
  rw [h0, h1, h2, writeRGB_other _ _ _ _ (by omega) (by omega) (by omega),
    writeRGB_other _ _ _ _ (by omega) (by omega) (by omega),
    writeRGB_other _ _ _ _ (by omega) (by omega) (by omega)]

lemma diffuseStep_alpha (palette : List RGB) (matrix : List Tap) (w h : ℕ) (d : Buf)
    (p : ℕ) (j : ℕ) (hj : j % 4 = 3) :
    diffuseStep palette matrix w h d p j = d j := by
  unfold diffuseStep
  try dsimp only
  refine foldl_preserves _ matrix (fun e : Buf => e j = d j)
    (fun e t ht he => by dsimp only; rw [diffuseTap_alpha _ _ _ _ _ _ _ e t j hj]; exact he)
    _ ?base
  exact writeRGB_alpha d p _ j hj

lemma diffuseStep_le (palette : List RGB) (matrix : List Tap) (w h : ℕ) (d : Buf) (p : ℕ)
    (hne : palette ≠ [])
    (hpb : ∀ c ∈ palette, c.r ≤ 255 ∧ c.g ≤ 255 ∧ c.b ≤ 255)
    (hd : ∀ j, d j ≤ 255) :
    ∀ j, diffuseStep palette matrix w h d p j ≤ 255 := by
  unfold diffuseStep
  try dsimp only
  refine foldl_preserves _ matrix (fun e : Buf => ∀ j, e j ≤ 255)
    (fun e t ht he j => diffuseTap_le _ _ _ _ _ _ _ e t he j) _ ?base
  intro j
  have hmem := findClosestColor_mem (pixelAt d p) palette hne
  obtain ⟨hr, hg, hb⟩ := hpb _ hmem
  unfold writeRGB
  split_ifs <;> first | exact hr | exact hg | exact hb | exact hd j

lemma diffuseStep_agree (palette : List RGB) (matrix : List Tap) (w h : ℕ) (a b : Buf)
    (p : ℕ) (hab : agreeRGB a b) :
    agreeRGB (diffuseStep palette matrix w h a p) (diffuseStep palette matrix w h b p) := by
  have hpix : pixelAt a p = pixelAt b p := by
    unfold pixelAt
    rw [hab (4 * p) (by omega), hab (4 * p + 1) (by omega), hab (4 * p + 2) (by omega)]
  unfold diffuseStep
  try dsimp only
  rw [hpix]
  exact foldl_rel _ _ matrix agreeRGB
    (fun t ht d1 e1 h1 => diffuseTap_agree _ _ _ _ _ _ _ d1 e1 t h1)
    _ _ (writeRGB_agree a b p _ hab)

/-! ### Threshold step lemmas -/

lemma thresholdStep_pixel (palette : List RGB) (d : Buf) (p : ℕ) :
    pixelAt (thresholdStep palette d p) p = findClosestColor (pixelAt d p) palette := by
  unfold thresholdStep
  exact pixelAt_writeRGB_self d p _

lemma thresholdStep_other (palette : List RGB) (d : Buf) (p q : ℕ) (hq : q ≠ p) :
    pixelAt (thresholdStep palette d p) q = pixelAt d q := by
  unfold thresholdStep
  exact pixelAt_writeRGB_ne d p q _ hq

lemma thresholdStep_alpha (palette : List RGB) (d : Buf) (p : ℕ) (j : ℕ) (hj : j % 4 = 3) :
    thresholdStep palette d p j = d j := by
  unfold thresholdStep
  exact writeRGB_alpha d p _ j hj

lemma thresholdStep_agree (palette : List RGB) (a b : Buf) (p : ℕ) (hab : agreeRGB a b) :
    agreeRGB (thresholdStep palette a p) (thresholdStep palette b p) := by
  have hpix : pixelAt a p = pixelAt b p := by
    unfold pixelAt
    rw [hab (4 * p) (by omega), hab (4 * p + 1) (by omega), hab (4 * p + 2) (by omega)]
  unfold thresholdStep
  rw [hpix]
  exact writeRGB_agree a b p _ hab

/-- A color already in the palette is its own nearest match. -/
lemma findClosestColor_self (c : RGB) (palette : List RGB) (hc : c ∈ palette) :
    findClosestColor c palette = c := by
  have hne : palette ≠ [] := List.ne_nil_of_mem hc
  have hmin := findClosestColor_min c palette c hc
  rw [show colorDistSq c c = 0 from (colorDistSq_eq_zero c c).mpr rfl] at hmin
  have h0 : colorDistSq c (findClosestColor c palette) = 0 :=
    le_antisymm hmin (colorDistSq_nonneg _ _)
  exact ((colorDistSq_eq_zero _ _).mp h0).symm

/-! ### Scan-level invariants -/

lemma diffuseScan_quantized (palette : List RGB) (matrix : List Tap) (w h : ℕ) (d : Buf)
    (hw : 0 < w) (hm : ∀ t ∈ matrix, causalTap t) (hne : palette ≠ []) :
    ∀ k, ∀ q < k, pixelAt (diffuseScan palette matrix w h d k) q ∈ palette := by
  intro k
  induction k with
  | zero => intro q hq; omega
  | succ k ih =>
      intro q hq
      rw [diffuseScan_succ]
      rcases Nat.lt_succ_iff_lt_or_eq.mp hq with h1 | h1
      · rw [diffuseStep_earlier palette matrix w h _ k hw hm q h1]
        exact ih q h1
      · subst h1
        rw [diffuseStep_pixel palette matrix w h _ q hw hm]
        exact findClosestColor_mem _ palette hne

lemma diffuseScan_le (palette : List RGB) (matrix : List Tap) (w h : ℕ) (d : Buf)
    (hne : palette ≠ [])
    (hpb : ∀ c ∈ palette, c.r ≤ 255 ∧ c.g ≤ 255 ∧ c.b ≤ 255)
    (hd : ∀ j, d j ≤ 255) :
    ∀ k j, diffuseScan palette matrix w h d k j ≤ 255 := by
  intro k
  induction k with
  | zero => exact hd
  | succ k ih =>
      intro j
      rw [diffuseScan_succ]
      exact diffuseStep_le palette matrix w h _ k hne hpb ih j

lemma diffuseScan_alpha (palette : List RGB) (matrix : List Tap) (w h : ℕ) (d : Buf) :
    ∀ k j, j % 4 = 3 → diffuseScan palette matrix w h d k j = d j := by
  intro k
  induction k with
  | zero => intro j hj; rfl
  | succ k ih =>
      intro j hj
      rw [diffuseScan_succ, diffuseStep_alpha _ _ _ _ _ _ j hj]
      exact ih j hj

lemma diffuseScan_agree (palette : List RGB) (matrix : List Tap) (w h : ℕ) (a b : Buf)
    (hab : agreeRGB a b) :
    ∀ k, agreeRGB (diffuseScan palette matrix w h a k) (diffuseScan palette matrix w h b k) := by
  intro k
  induction k with
  | zero => exact hab
  | succ k ih =>
      rw [diffuseScan_succ, diffuseScan_succ]
      exact diffuseStep_agree palette matrix w h _ _ k ih

lemma thresholdScan_quantized (palette : List RGB) (d : Buf) (hne : palette ≠ []) :
    ∀ k, ∀ q < k, pixelAt (thresholdScan palette d k) q ∈ palette := by
  intro k
  induction k with
  | zero => intro q hq; omega
  | succ k ih =>
      intro q hq
      rw [thresholdScan_succ]
      rcases Nat.lt_succ_iff_lt_or_eq.mp hq with h1 | h1
      · rw [thresholdStep_other palette _ k q (by omega)]
        exact ih q h1
      · subst h1
        rw [thresholdStep_pixel]
        exact findClosestColor_mem _ palette hne

lemma thresholdScan_alpha (palette : List RGB) (d : Buf) :
    ∀ k j, j % 4 = 3 → thresholdScan palette d k j = d j := by
  intro k
  induction k with
  | zero => intro j hj; rfl
  | succ k ih =>
      intro j hj
      rw [thresholdScan_succ, thresholdStep_alpha _ _ _ j hj]
      exact ih j hj

lemma thresholdScan_agree (palette : List RGB) (a b : Buf) (hab : agreeRGB a b) :
    ∀ k, agreeRGB (thresholdScan palette a k) (thresholdScan palette b k) := by
  intro k
  induction k with
  | zero => exact hab
  | succ k ih =>
      rw [thresholdScan_succ, thresholdScan_succ]
      exact thresholdStep_agree palette _ _ k ih

lemma writeRGB_pixel_self (d : Buf) (p : ℕ) : writeRGB d p (pixelAt d p) = d := by
  funext j
  unfold writeRGB pixelAt
  split_ifs with h0 h1 h2
  · rw [h0]
  · rw [h1]
  · rw [h2]
  · rfl

/-- A pass over pixels that are all already their own nearest match
leaves the buffer untouched. -/
lemma thresholdScan_fixed (palette : List RGB) (d : Buf) :
    ∀ k, (∀ q < k, pixelAt d q ∈ palette) → thresholdScan palette d k = d := by
  intro k
  induction k with
  | zero => intro _; rfl
  | succ k ih =>
      intro hq
      rw [thresholdScan_succ, ih (fun q h => hq q (by omega))]
      unfold thresholdStep
      rw [findClosestColor_self _ palette (hq k (by omega))]
      exact writeRGB_pixel_self d k

/-! ### Kernel table lemmas -/

lemma kernels_causal :
    ∀ m ∈ [floydSteinberg, atkinson, burkes, sierra, stucki, jarvis],
      ∀ t ∈ m, causalTap t := by
  intro m hm t ht
  fin_cases hm <;>
    · simp only [floydSteinberg, atkinson, burkes, sierra, stucki, jarvis] at ht
      fin_cases ht <;> refine ⟨by norm_num, by norm_num, by norm_num⟩

lemma matrixFor_cases (method : String) :
    matrixFor method ∈ [floydSteinberg, atkinson, burkes, sierra, stucki, jarvis] := by
  unfold matrixFor diffusionMatrices
  simp only [List.lookup]
  rcases h1 : method == "floyd-steinberg" with _ | _ <;>
    rcases h2 : method == "atkinson" with _ | _ <;>
      rcases h3 : method == "burkes" with _ | _ <;>
        rcases h4 : method == "sierra" with _ | _ <;>
          rcases h5 : method == "stucki" with _ | _ <;>
            rcases h6 : method == "jarvis" with _ | _ <;>
              simp [h1, h2, h3, h4, h5, h6]

lemma matrixFor_causal (method : String) : ∀ t ∈ matrixFor method, causalTap t :=
  kernels_causal (matrixFor method) (matrixFor_cases method)

/-- An unrecognized method name is nobody's own property in the kernel
table. -/
lemma diffusionMatrices_lookup_none (method : String)
    (h1 : method ≠ "floyd-steinberg") (h2 : method ≠ "atkinson") (h3 : method ≠ "burkes")
    (h4 : method ≠ "sierra") (h5 : method ≠ "stucki") (h6 : method ≠ "jarvis") :
    diffusionMatrices.lookup method = none := by
  have e1 : (method == "floyd-steinberg") = false := beq_eq_false_iff_ne.mpr h1
  have e2 : (method == "atkinson") = false := beq_eq_false_iff_ne.mpr h2
  have e3 : (method == "burkes") = false := beq_eq_false_iff_ne.mpr h3
  have e4 : (method == "sierra") = false := beq_eq_false_iff_ne.mpr h4
  have e5 : (method == "stucki") = false := beq_eq_false_iff_ne.mpr h5
  have e6 : (method == "jarvis") = false := beq_eq_false_iff_ne.mpr h6
  unfold diffusionMatrices
  simp [List.lookup, e1, e2, e3, e4, e5, e6]

lemma matrixFor_fallback (method : String)
    (h1 : method ≠ "floyd-steinberg") (h2 : method ≠ "atkinson") (h3 : method ≠ "burkes")
    (h4 : method ≠ "sierra") (h5 : method ≠ "stucki") (h6 : method ≠ "jarvis") :
    matrixFor method = floydSteinberg := by
  unfold matrixFor
  rw [diffusionMatrices_lookup_none method h1 h2 h3 h4 h5 h6]
  rfl

lemma matrixProp_undef (method : String)
    (h1 : method ≠ "floyd-steinberg") (h2 : method ≠ "atkinson") (h3 : method ≠ "burkes")
    (h4 : method ≠ "sierra") (h5 : method ≠ "stucki") (h6 : method ≠ "jarvis")
    (h7 : method ∉ objectPrototypeProps) :
    matrixProp method = MatrixProp.undef := by
  unfold matrixProp
  rw [diffusionMatrices_lookup_none method h1 h2 h3 h4 h5 h6]
  exact if_neg h7

/-! ### Layer mask lemmas -/

lemma layerMask_at (d : Buf) (n : ℕ) (t : RGB) (p : ℕ) (hp : p < n) (i : ℕ) (hi : i < 3) :
    layerMask d n t (4 * p + i) = if pixelAt d p = t then 0 else 255 := by
  unfold layerMask
  have hdiv : (4 * p + i) / 4 = p := by omega
  have hmod : (4 * p + i) % 4 = i := by omega
  rw [hdiv, if_pos hp]
  by_cases he : pixelAt d p = t
  · rw [if_pos he, hmod, if_neg (show ¬ i = 3 by omega), if_pos he]
  · rw [if_neg he, if_neg he]

lemma maskBlack_iff (d : Buf) (n : ℕ) (t : RGB) (p : ℕ) (hp : p < n) :
    maskBlack (layerMask d n t) p ↔ pixelAt d p = t := by
  have e0 : layerMask d n t (4 * p) = if pixelAt d p = t then 0 else 255 := by
    have := layerMask_at d n t p hp 0 (by omega)
    simpa using this
  have e1 := layerMask_at d n t p hp 1 (by omega)
  have e2 := layerMask_at d n t p hp 2 (by omega)
  unfold maskBlack
  rw [show pixelAt (layerMask d n t) p =
    ⟨layerMask d n t (4 * p), layerMask d n t (4 * p + 1),
      layerMask d n t (4 * p + 2)⟩ from rfl]
  rw [e0, e1, e2, RGB.mk.injEq]
  by_cases he : pixelAt d p = t
  · rw [if_pos he]
    simp [he]
  · rw [if_neg he]
    simp [he]

/-! ## Claims -/

/-- Claim C1: if no palette has been set, every `applyDithering` call
fails fast with the explicit configuration error, for every input buffer
and every dither-method name, and the buffer is returned unchanged. -/
theorem c1_missing_palette_fails_fast (ip : ImageProcessor) (imageData : Image)
    (hp : ip.palette = none) :
    applyDithering ip imageData =
      (imageData, some "Palette not set. Call setPalette() first.") := by
  unfold applyDithering
  rw [hp]

/-- Witness for C1 at a concrete processor state and image. -/
theorem c1_missing_palette_fails_fast_witness :
    (⟨"atkinson", none⟩ : ImageProcessor).palette = none ∧
      applyDithering ⟨"atkinson", none⟩ ⟨1, 1, fun _ => 0⟩ =
        (⟨1, 1, fun _ => 0⟩, some "Palette not set. Call setPalette() first.") :=
  ⟨rfl, c1_missing_palette_fails_fast ⟨"atkinson", none⟩ ⟨1, 1, fun _ => 0⟩ rfl⟩

/-- Claim C2: with a non-empty byte-valued palette set (the data model's
palettes always are), every pixel of the output of `applyDithering`
carries a palette color, for every method name (both the threshold route
and every error-diffusion kernel, where the claim rests on error only
ever being pushed to not-yet-visited pixels). -/
theorem c2_output_pixels_in_palette (ip : ImageProcessor) (imageData : Image)
    (palette : List RGB) (hp : ip.palette = some palette) (hne : palette ≠ [])
    (_hpb : ∀ c ∈ palette, c.r ≤ 255 ∧ c.g ≤ 255 ∧ c.b ≤ 255) :
    ∀ q < imageData.width * imageData.height,
      pixelAt (applyDithering ip imageData).1.data q ∈ palette := by
  intro q hq
  have hw : 0 < imageData.width := by
    rcases Nat.eq_zero_or_pos imageData.width with h | h
    · rw [h] at hq; omega
    · exact h
  have hres : (applyDithering ip imageData).1 =
      if ip.ditherMethod = "threshold" then applyThresholdDithering imageData palette
      else applyErrorDiffusionDithering imageData palette ip.ditherMethod := by
    unfold applyDithering
    rw [hp]
    split_ifs with hm <;> rfl
  rw [hres]
  split_ifs with hm
  · unfold applyThresholdDithering
    exact thresholdScan_quantized palette imageData.data hne _ q hq
  · unfold applyErrorDiffusionDithering
    exact diffuseScan_quantized palette (matrixFor ip.ditherMethod) imageData.width
      imageData.height imageData.data hw (matrixFor_causal _) hne _ q hq

/-- Witness for C2 at a concrete processor, palette and 1×1 image. -/
theorem c2_output_pixels_in_palette_witness :
    (⟨"unknown-kernel", some [⟨0, 0, 0⟩, ⟨255, 255, 255⟩]⟩ : ImageProcessor).palette =
        some [⟨0, 0, 0⟩, ⟨255, 255, 255⟩] ∧
      ([⟨0, 0, 0⟩, ⟨255, 255, 255⟩] : List RGB) ≠ [] ∧
      (∀ c ∈ ([⟨0, 0, 0⟩, ⟨255, 255, 255⟩] : List RGB),
        c.r ≤ 255 ∧ c.g ≤ 255 ∧ c.b ≤ 255) ∧
      ∀ q < (⟨1, 1, fun _ => 7⟩ : Image).width * (⟨1, 1, fun _ => 7⟩ : Image).height,
        pixelAt (applyDithering ⟨"unknown-kernel", some [⟨0, 0, 0⟩, ⟨255, 255, 255⟩]⟩
          ⟨1, 1, fun _ => 7⟩).1.data q ∈ [⟨0, 0, 0⟩, ⟨255, 255, 255⟩] :=
  ⟨rfl, by decide, by decide,
    c2_output_pixels_in_palette ⟨"unknown-kernel", some [⟨0, 0, 0⟩, ⟨255, 255, 255⟩]⟩
      ⟨1, 1, fun _ => 7⟩ [⟨0, 0, 0⟩, ⟨255, 255, 255⟩] rfl (by decide) (by decide)⟩

/-- Claim C3: during error diffusion with byte-valued input and a
non-empty byte-valued palette, every intermediate buffer state keeps all
channel values within `[0, 255]`, the per-channel residual error has
absolute value at most `255` before distribution at every pixel, and the
final output is within `[0, 255]`; each tap's contribution is clamped by
`clampByte` the moment it is added. -/
theorem c3_diffusion_bounds (imageData : Image) (palette : List RGB) (method : String)
    (hne : palette ≠ [])
    (hpb : ∀ c ∈ palette, c.r ≤ 255 ∧ c.g ≤ 255 ∧ c.b ≤ 255)
    (hd : ∀ j, imageData.data j ≤ 255) :
    (∀ k j, diffuseScan palette (matrixFor method) imageData.width imageData.height
        imageData.data k j ≤ 255) ∧
    (∀ k,
      ((pixelAt (diffuseScan palette (matrixFor method) imageData.width imageData.height
          imageData.data k) k).r -
        (findClosestColor (pixelAt (diffuseScan palette (matrixFor method) imageData.width
          imageData.height imageData.data k) k) palette).r : ℤ).natAbs ≤ 255 ∧
      ((pixelAt (diffuseScan palette (matrixFor method) imageData.width imageData.height
          imageData.data k) k).g -
        (findClosestColor (pixelAt (diffuseScan palette (matrixFor method) imageData.width
          imageData.height imageData.data k) k) palette).g : ℤ).natAbs ≤ 255 ∧
      ((pixelAt (diffuseScan palette (matrixFor method) imageData.width imageData.height
          imageData.data k) k).b -
        (findClosestColor (pixelAt (diffuseScan palette (matrixFor method) imageData.width
          imageData.height imageData.data k) k) palette).b : ℤ).natAbs ≤ 255) ∧
    (∀ j, (applyErrorDiffusionDithering imageData palette method).data j ≤ 255) := by
  have hscan := diffuseScan_le palette (matrixFor method) imageData.width imageData.height
    imageData.data hne hpb hd
  refine ⟨hscan, ?_, ?_⟩
  · intro k
    set dk := diffuseScan palette (matrixFor method) imageData.width imageData.height
      imageData.data k with hdk
    have hold : (pixelAt dk k).r ≤ 255 ∧ (pixelAt dk k).g ≤ 255 ∧ (pixelAt dk k).b ≤ 255 :=
      ⟨hscan k (4 * k), hscan k (4 * k + 1), hscan k (4 * k + 2)⟩
    have hnew := hpb _ (findClosestColor_mem (pixelAt dk k) palette hne)
    exact ⟨by omega, by omega, by omega⟩
  · intro j
    unfold applyErrorDiffusionDithering
    exact hscan _ j

/-- Witness for C3 at a concrete image, palette and method. -/
theorem c3_diffusion_bounds_witness :
    ([⟨255, 255, 255⟩, ⟨0, 0, 0⟩] : List RGB) ≠ [] ∧
      (∀ c ∈ ([⟨255, 255, 255⟩, ⟨0, 0, 0⟩] : List RGB),
        c.r ≤ 255 ∧ c.g ≤ 255 ∧ c.b ≤ 255) ∧
      (∀ j, (⟨2, 2, fun _ => 200⟩ : Image).data j ≤ 255) ∧
      (∀ k j, diffuseScan [⟨255, 255, 255⟩, ⟨0, 0, 0⟩] (matrixFor "floyd-steinberg")
        (⟨2, 2, fun _ => 200⟩ : Image).width (⟨2, 2, fun _ => 200⟩ : Image).height
        (⟨2, 2, fun _ => 200⟩ : Image).data k j ≤ 255) :=
  ⟨by decide, by decide, fun _ => by norm_num,
    (c3_diffusion_bounds ⟨2, 2, fun _ => 200⟩ [⟨255, 255, 255⟩, ⟨0, 0, 0⟩]
      "floyd-steinberg" (by decide) (by decide) (fun _ => by norm_num)).1⟩

/-- Counterexample to claim C4 as stated: the unrecognized method name
`"toString"` is an inherited `Object.prototype` property, so the JS
property access yields a truthy non-kernel value, the fallback never
fires, and the call throws a `TypeError` on any non-empty image —
unlike the same call with `"floyd-steinberg"`, which completes without
error.  So an unknown name is not "never an error". -/
theorem c4_unknown_method_fallback_counterexample :
    ("toString" ∉ ["floyd-steinberg", "atkinson", "burkes", "sierra", "stucki",
      "jarvis", "threshold"]) ∧
      (applyErrorDiffusionDitheringJS ⟨1, 1, fun _ => 0⟩ [⟨0, 0, 0⟩] "toString").2 =
        some "TypeError: matrix.forEach is not a function" ∧
      (applyErrorDiffusionDitheringJS ⟨1, 1, fun _ => 0⟩
        [⟨0, 0, 0⟩] "floyd-steinberg").2 = none :=
  ⟨by decide, rfl, rfl⟩

/-- Claim C4 as amended: error-diffusion dithering with an unrecognized
method name that is not an inherited `Object.prototype` property name
(such as `"nonexistent"`) completes without error and produces output
byte-identical to calling it with `"floyd-steinberg"` on the same
input; for unrecognized names that are inherited properties the lookup
yields a truthy non-kernel value and the call instead throws a
`TypeError` (see the counterexample). -/
theorem c4_unknown_method_fallback_amended (imageData : Image) (palette : List RGB)
    (method : String)
    (h1 : method ≠ "floyd-steinberg") (h2 : method ≠ "atkinson") (h3 : method ≠ "burkes")
    (h4 : method ≠ "sierra") (h5 : method ≠ "stucki") (h6 : method ≠ "jarvis")
    (h7 : method ∉ objectPrototypeProps) :
    applyErrorDiffusionDitheringJS imageData palette method =
      applyErrorDiffusionDitheringJS imageData palette "floyd-steinberg" := by
  have hm : matrixProp method = MatrixProp.undef :=
    matrixProp_undef method h1 h2 h3 h4 h5 h6 h7
  unfold applyErrorDiffusionDitheringJS
  rw [if_neg (show ¬ matrixProp method = MatrixProp.inheritedJunk by simp [hm]),
    if_neg (show ¬ matrixProp "floyd-steinberg" = MatrixProp.inheritedJunk by decide)]
  unfold applyErrorDiffusionDithering
  rw [matrixFor_fallback method h1 h2 h3 h4 h5 h6,
    show matrixFor "floyd-steinberg" = floydSteinberg from rfl]

/-- Witness for the amended C4 at the method name from the spec
scenario. -/
theorem c4_unknown_method_fallback_amended_witness :
    ("nonexistent" ≠ "floyd-steinberg") ∧ ("nonexistent" ≠ "atkinson") ∧
      ("nonexistent" ≠ "burkes") ∧ ("nonexistent" ≠ "sierra") ∧
      ("nonexistent" ≠ "stucki") ∧ ("nonexistent" ≠ "jarvis") ∧
      ("nonexistent" ∉ objectPrototypeProps) ∧
      applyErrorDiffusionDitheringJS ⟨1, 1, fun _ => 3⟩ [⟨0, 0, 0⟩] "nonexistent" =
        applyErrorDiffusionDitheringJS ⟨1, 1, fun _ => 3⟩ [⟨0, 0, 0⟩] "floyd-steinberg" :=
  ⟨by decide, by decide, by decide, by decide, by decide, by decide, by decide,
    c4_unknown_method_fallback_amended ⟨1, 1, fun _ => 3⟩ [⟨0, 0, 0⟩] "nonexistent"
      (by decide) (by decide) (by decide) (by decide) (by decide) (by decide) (by decide)⟩

/-- Claim C5: the color matcher returns the palette entry at the first
(lowest) index achieving the minimum distance: that index achieves the
minimum over the whole palette and every strictly earlier index has
strictly greater distance — so in any tie the lowest-index entry wins,
and white at index 0 wins any tie it participates in. -/
theorem c5_first_minimal_index_wins (rgb : RGB) (palette : List RGB) (hne : palette ≠ []) :
    ∃ k, ∃ hk : k < palette.length,
      findClosestColor rgb palette = palette.get ⟨k, hk⟩ ∧
      (∀ x ∈ palette, colorDistSq rgb (palette.get ⟨k, hk⟩) ≤ colorDistSq rgb x) ∧
      ∀ m, ∀ hm : m < k,
        colorDistSq rgb (palette.get ⟨k, hk⟩) <
          colorDistSq rgb (palette.get ⟨m, hm.trans hk⟩) := by
  cases palette with
  | nil => exact absurd rfl hne
  | cons c rest =>
      rcases fccLoop_spec rgb rest c with ⟨heq, hall⟩ | ⟨k, hk, heq, hlt2, hfirst, hmin⟩
      · refine ⟨0, by simp, heq, ?_, fun m hm => absurd hm (Nat.not_lt_zero m)⟩
        intro x hx
        rcases List.mem_cons.mp hx with h | h
        · rw [h]; exact le_rfl
        · exact hall x h
      · refine ⟨k + 1, by simpa using Nat.succ_lt_succ hk, heq, ?_, ?_⟩
        · intro x hx
          rcases List.mem_cons.mp hx with h | h
          · rw [h]; exact le_of_lt hlt2
          · exact hmin x h
        · intro m hm
          cases m with
          | zero => exact hlt2
          | succ m => exact hfirst m (Nat.lt_of_succ_lt_succ hm)

/-- Witness for C5 at a concrete pixel and three-color palette in
which the two non-minimal entries (indices 1 and 2) are exactly
equidistant from the pixel and index 0 is the unique minimum. -/
theorem c5_first_minimal_index_wins_witness :
    ([⟨10, 0, 0⟩, ⟨0, 0, 0⟩, ⟨20, 0, 0⟩] : List RGB) ≠ [] ∧
      ∃ k, ∃ hk : k < ([⟨10, 0, 0⟩, ⟨0, 0, 0⟩, ⟨20, 0, 0⟩] : List RGB).length,
        findClosestColor ⟨10, 0, 0⟩ [⟨10, 0, 0⟩, ⟨0, 0, 0⟩, ⟨20, 0, 0⟩] =
          ([⟨10, 0, 0⟩, ⟨0, 0, 0⟩, ⟨20, 0, 0⟩] : List RGB).get ⟨k, hk⟩ ∧
        (∀ x ∈ ([⟨10, 0, 0⟩, ⟨0, 0, 0⟩, ⟨20, 0, 0⟩] : List RGB),
          colorDistSq ⟨10, 0, 0⟩ (([⟨10, 0, 0⟩, ⟨0, 0, 0⟩, ⟨20, 0, 0⟩] : List RGB).get
            ⟨k, hk⟩) ≤ colorDistSq ⟨10, 0, 0⟩ x) ∧
        ∀ m, ∀ hm : m < k,
          colorDistSq ⟨10, 0, 0⟩ (([⟨10, 0, 0⟩, ⟨0, 0, 0⟩, ⟨20, 0, 0⟩] : List RGB).get
            ⟨k, hk⟩) <
            colorDistSq ⟨10, 0, 0⟩ (([⟨10, 0, 0⟩, ⟨0, 0, 0⟩, ⟨20, 0, 0⟩] : List RGB).get
              ⟨m, hm.trans hk⟩) :=
  ⟨by decide, c5_first_minimal_index_wins ⟨10, 0, 0⟩
    [⟨10, 0, 0⟩, ⟨0, 0, 0⟩, ⟨20, 0, 0⟩] (by decide)⟩

/-- Claim C6: threshold quantization is idempotent — applying
`applyThresholdDithering` twice with a non-empty byte-valued palette
yields the same image as applying it once, because every
already-quantized pixel is its own nearest match. -/
theorem c6_threshold_idempotent (imageData : Image) (palette : List RGB)
    (hne : palette ≠ [])
    (_hpb : ∀ c ∈ palette, c.r ≤ 255 ∧ c.g ≤ 255 ∧ c.b ≤ 255) :
    applyThresholdDithering (applyThresholdDithering imageData palette) palette =
      applyThresholdDithering imageData palette := by
  unfold applyThresholdDithering
  dsimp only
  congr 1
  exact thresholdScan_fixed palette _ _
    (fun q hq => thresholdScan_quantized palette imageData.data hne _ q hq)

/-- Witness for C6 at a concrete image and palette. -/
theorem c6_threshold_idempotent_witness :
    ([⟨255, 255, 255⟩, ⟨0, 0, 0⟩] : List RGB) ≠ [] ∧
      (∀ c ∈ ([⟨255, 255, 255⟩, ⟨0, 0, 0⟩] : List RGB),
        c.r ≤ 255 ∧ c.g ≤ 255 ∧ c.b ≤ 255) ∧
      applyThresholdDithering
          (applyThresholdDithering ⟨1, 2, fun _ => 90⟩ [⟨255, 255, 255⟩, ⟨0, 0, 0⟩])
          [⟨255, 255, 255⟩, ⟨0, 0, 0⟩] =
        applyThresholdDithering ⟨1, 2, fun _ => 90⟩ [⟨255, 255, 255⟩, ⟨0, 0, 0⟩] :=
  ⟨by decide, by decide, c6_threshold_idempotent ⟨1, 2, fun _ => 90⟩
    [⟨255, 255, 255⟩, ⟨0, 0, 0⟩] (by decide) (by decide)⟩

/-- Claim C7: on a quantized buffer over a pairwise-distinct six-entry
palette, the five exported layer masks are black at a pixel exactly when
the pixel carries the corresponding ink color; their black pixels cover
exactly the non-white (non-index-0) pixels, and no pixel is black in
more than one mask. -/
theorem c7_layer_separation (d : Buf) (n : ℕ) (c0 c1 c2 c3 c4 c5 : RGB)
    (hnd : ([c0, c1, c2, c3, c4, c5] : List RGB).Nodup)
    (hq : ∀ p < n, pixelAt d p ∈ [c0, c1, c2, c3, c4, c5]) :
    exportRisographLayers d n [c0, c1, c2, c3, c4, c5] =
      [layerMask d n c1, layerMask d n c2, layerMask d n c3, layerMask d n c4,
        layerMask d n c5] ∧
    (∀ p < n, ∀ i : Fin 5,
      maskBlack (layerMask d n (([c1, c2, c3, c4, c5] : List RGB).get i)) p ↔
        pixelAt d p = ([c1, c2, c3, c4, c5] : List RGB).get i) ∧
    (∀ p < n,
      (∃ i : Fin 5,
        maskBlack (layerMask d n (([c1, c2, c3, c4, c5] : List RGB).get i)) p) ↔
        pixelAt d p ≠ c0) ∧
    (∀ p < n, ∀ i j : Fin 5,
      maskBlack (layerMask d n (([c1, c2, c3, c4, c5] : List RGB).get i)) p →
        maskBlack (layerMask d n (([c1, c2, c3, c4, c5] : List RGB).get j)) p → i = j) := by
  have hhead : c0 ∉ ([c1, c2, c3, c4, c5] : List RGB) := (List.nodup_cons.mp hnd).1
  have htail : ([c1, c2, c3, c4, c5] : List RGB).Nodup := (List.nodup_cons.mp hnd).2
  refine ⟨rfl, ?_, ?_, ?_⟩
  · intro p hp i
    exact maskBlack_iff d n _ p hp
  · intro p hp
    constructor
    · rintro ⟨i, hb⟩
      have hpx := (maskBlack_iff d n _ p hp).mp hb
      intro h0
      apply hhead
      rw [← h0, hpx]
      exact List.get_mem _ _ _
    · intro hne0
      have hmem := hq p hp
      simp only [List.mem_cons, List.not_mem_nil, or_false] at hmem
      rcases hmem with h | h | h | h | h | h
      · exact absurd h hne0
      · exact ⟨⟨0, by omega⟩, (maskBlack_iff d n _ p hp).mpr h⟩
      · exact ⟨⟨1, by omega⟩, (maskBlack_iff d n _ p hp).mpr h⟩
      · exact ⟨⟨2, by omega⟩, (maskBlack_iff d n _ p hp).mpr h⟩
      · exact ⟨⟨3, by omega⟩, (maskBlack_iff d n _ p hp).mpr h⟩
      · exact ⟨⟨4, by omega⟩, (maskBlack_iff d n _ p hp).mpr h⟩
  · intro p hp i j hbi hbj
    have hi := (maskBlack_iff d n _ p hp).mp hbi
    have hj := (maskBlack_iff d n _ p hp).mp hbj
    have hget : ([c1, c2, c3, c4, c5] : List RGB).get i =
        ([c1, c2, c3, c4, c5] : List RGB).get j := by
      rw [← hi, ← hj]
    exact htail.get_inj_iff.mp hget

/-- Witness for C7 at a concrete quantized 1-pixel buffer. -/
theorem c7_layer_separation_witness :
    ([⟨255, 255, 255⟩, ⟨0, 0, 0⟩, ⟨1, 0, 0⟩, ⟨2, 0, 0⟩, ⟨3, 0, 0⟩, ⟨4, 0, 0⟩] :
        List RGB).Nodup ∧
      (∀ p < 1, pixelAt (fun _ => 255) p ∈
        ([⟨255, 255, 255⟩, ⟨0, 0, 0⟩, ⟨1, 0, 0⟩, ⟨2, 0, 0⟩, ⟨3, 0, 0⟩, ⟨4, 0, 0⟩] :
          List RGB)) ∧
      exportRisographLayers (fun _ => 255) 1
          [⟨255, 255, 255⟩, ⟨0, 0, 0⟩, ⟨1, 0, 0⟩, ⟨2, 0, 0⟩, ⟨3, 0, 0⟩, ⟨4, 0, 0⟩] =
        [layerMask (fun _ => 255) 1 ⟨0, 0, 0⟩, layerMask (fun _ => 255) 1 ⟨1, 0, 0⟩,
          layerMask (fun _ => 255) 1 ⟨2, 0, 0⟩, layerMask (fun _ => 255) 1 ⟨3, 0, 0⟩,
          layerMask (fun _ => 255) 1 ⟨4, 0, 0⟩] :=
  ⟨by decide, by decide,
    (c7_layer_separation (fun _ => 255) 1 ⟨255, 255, 255⟩ ⟨0, 0, 0⟩ ⟨1, 0, 0⟩ ⟨2, 0, 0⟩
      ⟨3, 0, 0⟩ ⟨4, 0, 0⟩ (by decide) (by decide)).1⟩

/-- Claim C8: every tap of each of the six compiled diffusion kernels
satisfies `dy ≥ 0`, `dy = 0 → dx > 0`, and has positive weight — under
the row-major scan every error contribution lands on a pixel not yet
visited. -/
theorem c8_kernel_taps_causal :
    ∀ pair ∈ diffusionMatrices, ∀ t ∈ pair.2,
      0 ≤ t.dy ∧ (t.dy = 0 → 0 < t.dx) ∧ 0 < t.factor := by
  intro pair hp t ht
  have h2 : pair.2 ∈ [floydSteinberg, atkinson, burkes, sierra, stucki, jarvis] := by
    unfold diffusionMatrices at hp
    fin_cases hp <;> simp
  exact kernels_causal pair.2 h2 t ht

/-- Witness for C8 at the first Floyd-Steinberg tap. -/
theorem c8_kernel_taps_causal_witness :
    ("floyd-steinberg", floydSteinberg) ∈ diffusionMatrices ∧
      (⟨1, 0, 7/16⟩ : Tap) ∈ ("floyd-steinberg", floydSteinberg).2 ∧
      (0 ≤ (⟨1, 0, 7/16⟩ : Tap).dy ∧ ((⟨1, 0, 7/16⟩ : Tap).dy = 0 →
        0 < (⟨1, 0, 7/16⟩ : Tap).dx) ∧ 0 < (⟨1, 0, 7/16⟩ : Tap).factor) :=
  ⟨by simp [diffusionMatrices], by simp [floydSteinberg],
    c8_kernel_taps_causal ("floyd-steinberg", floydSteinberg)
      (by simp [diffusionMatrices]) ⟨1, 0, 7/16⟩ (by simp [floydSteinberg])⟩

/-- Claim C9: both threshold quantization and error-diffusion dithering
leave the alpha sample of every pixel unchanged, for every buffer,
palette and method. -/
theorem c9_alpha_unchanged (imageData : Image) (palette : List RGB) (method : String)
    (p : ℕ) :
    (applyThresholdDithering imageData palette).data (4 * p + 3) =
        imageData.data (4 * p + 3) ∧
      (applyErrorDiffusionDithering imageData palette method).data (4 * p + 3) =
        imageData.data (4 * p + 3) := by
  constructor
  · unfold applyThresholdDithering
    exact thresholdScan_alpha palette imageData.data _ (4 * p + 3) (by omega)
  · unfold applyErrorDiffusionDithering
    exact diffuseScan_alpha palette (matrixFor method) imageData.width imageData.height
      imageData.data _ (4 * p + 3) (by omega)

/-- Claim C10: the alpha channel never influences color output — two
buffers agreeing on every non-alpha sample produce outputs agreeing on
every non-alpha sample, under both threshold quantization and
error-diffusion dithering with any palette and method. -/
theorem c10_alpha_noninterference (w h : ℕ) (d1 d2 : Buf) (palette : List RGB)
    (method : String) (hag : agreeRGB d1 d2) :
    agreeRGB (applyThresholdDithering ⟨w, h, d1⟩ palette).data
        (applyThresholdDithering ⟨w, h, d2⟩ palette).data ∧
      agreeRGB (applyErrorDiffusionDithering ⟨w, h, d1⟩ palette method).data
        (applyErrorDiffusionDithering ⟨w, h, d2⟩ palette method).data := by
  constructor
  · unfold applyThresholdDithering
    exact thresholdScan_agree palette d1 d2 hag _
  · unfold applyErrorDiffusionDithering
    exact diffuseScan_agree palette (matrixFor method) w h d1 d2 hag _

/-- Witness for C10 at two concrete buffers differing only in alpha. -/
theorem c10_alpha_noninterference_witness :
    agreeRGB (fun _ => 0) (fun j => if j % 4 = 3 then 9 else 0) ∧
      agreeRGB
        (applyThresholdDithering ⟨1, 1, fun _ => 0⟩ [⟨5, 5, 5⟩]).data
        (applyThresholdDithering ⟨1, 1, fun j => if j % 4 = 3 then 9 else 0⟩
          [⟨5, 5, 5⟩]).data ∧
      agreeRGB
        (applyErrorDiffusionDithering ⟨1, 1, fun _ => 0⟩ [⟨5, 5, 5⟩] "sierra").data
        (applyErrorDiffusionDithering ⟨1, 1, fun j => if j % 4 = 3 then 9 else 0⟩
          [⟨5, 5, 5⟩] "sierra").data :=
  ⟨fun _ hj => (if_neg hj).symm,
    (c10_alpha_noninterference 1 1 (fun _ => 0) (fun j => if j % 4 = 3 then 9 else 0)
      [⟨5, 5, 5⟩] "sierra" (fun _ hj => (if_neg hj).symm)).1,
    (c10_alpha_noninterference 1 1 (fun _ => 0) (fun j => if j % 4 = 3 then 9 else 0)
      [⟨5, 5, 5⟩] "sierra" (fun _ hj => (if_neg hj).symm)).2⟩

end CrashCamera
